import Mathlib

/-
Verification of the array-job orchestration and output-quarantine engine of
`sequence_processing_pipeline/QCJob.py`, against its natural-language
specification.  Python strings are embedded as `List Char`, the filesystem
directory scanned by `_filter` as an association list from file name to file
size, and the fallible parts (`os.stat` on a missing path, `shutil.move` of a
missing source) as `Except`/explicit error flags.
-/

namespace MgScripts

/-! ## String primitives

`'_R1_' in entry`, `entry.replace('_R1_', '_R2_')`, `some_file.endswith('fastq.gz')`
and `os.path.join`/`os.path.split` from QCJob.py, modelled on `List Char`. -/

/-- Does the string start with the four characters `_R1_`?  Helper for the
substring test and the replacement below. -/
def starts_R1 : List Char → Bool
  | a :: b :: c :: d :: _ => a == '_' && b == 'R' && c == '1' && d == '_'
  | _ => false

/-- Python `'_R1_' in entry` (QCJob.py line 93): substring containment. -/
def contains_R1 : List Char → Bool
  | [] => false
  | x :: rest => starts_R1 (x :: rest) || contains_R1 rest

/-- Python `entry.replace('_R1_', '_R2_')` (QCJob.py line 94): replace every
non-overlapping occurrence of `_R1_` by `_R2_`, scanning left to right and
continuing after each replaced occurrence. -/
def replace_R1_R2 : List Char → List Char
  | a :: b :: c :: d :: rest =>
    if a == '_' && b == 'R' && c == '1' && d == '_' then
      '_' :: 'R' :: '2' :: '_' :: replace_R1_R2 rest
    else
      a :: replace_R1_R2 (b :: c :: d :: rest)
  | a :: rest => a :: replace_R1_R2 rest
  | [] => []

/-- Python `some_file.endswith('fastq.gz')` (QCJob.py line 178). -/
def ends_with_fastq_gz (s : List Char) : Bool :=
  List.isSuffixOf ("fastq.gz".toList) s

/-- Python `os.path.join(a, b)` (for `a` without a trailing slash and a
relative `b`, the only shapes QCJob.py produces). -/
def pjoin (a b : List Char) : List Char := a ++ '/' :: b

/-- Python `os.path.split(p)`: split at the last slash; the second component
is the base name.  (QCJob.py line 199; paths produced by the walk contain at
least one slash and no trailing slash.) -/
def path_split (p : List Char) : List Char × List Char :=
  let r := p.reverse.span (fun c => c != '/')
  ((r.2.drop 1).reverse, r.1.reverse)

/-- `'\n'.join(lines)` / `' '.join(modules)` (QCJob.py lines 263, 270, 273). -/
def joinSep (sep : Char) : List (List Char) → List Char
  | [] => []
  | x :: xs =>
    match xs with
    | [] => x
    | _ :: _ => x ++ sep :: joinSep sep xs

/-- Split a text file's contents into its lines, as `head`/`tail` count them:
the final line need not end in a newline. -/
def split_lines : List Char → List (List Char)
  | [] => [[]]
  | c :: rest =>
    if c = '\n' then [] :: split_lines rest
    else
      match split_lines rest with
      | [] => [[c]]
      | h :: t => (c :: h) :: t

/-- Decimal rendering of a natural number, as Python `'%d' % n`. -/
def natChars (n : Nat) : List Char := Nat.toDigits 10 n

/-! ## The quarantine operation: `QCJob._filter` (QCJob.py lines 88-110)

The filtered-output directory is an association list from file name to file
size (`os.listdir` enumerates the names in list order, `os.stat(path).st_size`
looks the size up).  `_filter` is split exactly as the Python function is:
a scan loop that builds `empty_list` (raising `FileNotFoundError` when it
`stat`s a missing mate-2 name), then a move loop that relocates every listed
file into the quarantine directory (raising when a source is already gone). -/

/-- One directory: file names paired with their sizes in bytes. -/
abbrev Dir := List (List Char × Nat)

/-- `os.stat(join(dir, name)).st_size`, returning `none` when no entry of the
directory has that name (Python raises `FileNotFoundError`). -/
def statDir (dir : Dir) (name : List Char) : Option Nat :=
  (dir.find? (fun p => p.1 == name)).map (fun p => p.2)

/-- The body of the scan loop of `_filter` for one directory entry
(QCJob.py lines 93-102): entries without `_R1_` are skipped; otherwise the
mate-2 name is computed by substitution and the pair is listed whenever one
of the two sizes is at most `minimum_bytes`.  Python's `or` short-circuits:
the mate-2 file is `stat`-ed only when the mate-1 file is large enough. -/
def entryCheck (dir : Dir) (minimum_bytes : Nat) (entry : List Char) :
    Except Unit (List (List Char)) :=
  if contains_R1 entry then
    let reverse_entry := replace_R1_R2 entry
    match statDir dir entry with
    | none => Except.error ()
    | some s1 =>
      if s1 ≤ minimum_bytes then Except.ok [entry, reverse_entry]
      else
        match statDir dir reverse_entry with
        | none => Except.error ()
        | some s2 =>
          if s2 ≤ minimum_bytes then Except.ok [entry, reverse_entry]
          else Except.ok []
  else Except.ok []

/-- The scan loop of `_filter` (QCJob.py lines 92-102): fold `entryCheck`
over the `listdir` listing, concatenating the per-entry contributions into
`empty_list` in listing order. -/
def scanEntries (dir : Dir) (minimum_bytes : Nat) :
    List (List Char × Nat) → Except Unit (List (List Char))
  | [] => Except.ok []
  | e :: rest =>
    match entryCheck dir minimum_bytes e.1 with
    | Except.error u => Except.error u
    | Except.ok l =>
      match scanEntries dir minimum_bytes rest with
      | Except.error u => Except.error u
      | Except.ok l' => Except.ok (l ++ l')

/-- The move loop of `_filter` (QCJob.py lines 108-110): `shutil.move` each
listed file out of the source directory, in list order.  A missing source
raises; files moved before the failure stay moved.  Returns the outcome, the
final source directory, and the files deposited in the quarantine
directory, in order. -/
def movePhase : Dir → List (List Char) → Except Unit Unit × Dir × List (List Char)
  | d, [] => (Except.ok (), d, [])
  | d, item :: rest =>
    match statDir d item with
    | none => (Except.error (), d, [])
    | some _ =>
      let d' := d.filter (fun p => p.1 != item)
      match movePhase d' rest with
      | (r, dfin, moved) => (r, dfin, item :: moved)

/-- Observable outcome of one `_filter` call. -/
structure FilterResult where
  /-- the value the Python function returns; `_filter` has no `return`
  statement, so a completed call returns `None` -/
  retval : Option (List (List Char))
  /-- whether an `OSError` propagated out of the call -/
  raised : Bool
  /-- final state of `filtered_directory` -/
  srcDir : Dir
  /-- files moved into `empty_files_directory`, in move order -/
  moved : List (List Char)
deriving DecidableEq

/-- `QCJob._filter(filtered_directory, empty_files_directory, minimum_bytes)`
(QCJob.py lines 88-110): scan, then move.  (The lazy `makedirs` of the
quarantine directory, line 106, affects no claim and is not modelled.) -/
def pyFilter (dir : Dir) (minimum_bytes : Nat) : FilterResult :=
  match scanEntries dir minimum_bytes dir with
  | Except.error _ => ⟨none, true, dir, []⟩
  | Except.ok empty_list =>
    match movePhase dir empty_list with
    | (Except.ok _, d, mv) => ⟨none, false, d, mv⟩
    | (Except.error _, d, mv) => ⟨none, true, d, mv⟩

/-- Modelled from the spec ("Contract: quarantine(project_output_dir,
min_bytes) → list of moved paths"): the return value the spec promises. -/
def quarantine_spec_retval (dir : Dir) (minimum_bytes : Nat) :
    Option (List (List Char)) :=
  some (pyFilter dir minimum_bytes).moved

/-! ## The resolver: `QCJob._find_fastq_files_in_run_dir` and
`QCJob._find_fastq_files` (QCJob.py lines 173-208)

`os.walk` is embedded as its result: the list of `(root, files)` pairs it
yields, in walk order (the unused `dirs` component is dropped).  The regular
expression `(.*)_R\d_\d\d\d.fastq.gz` of line 200 is embedded with Python
`re.match` semantics: anchored at the start of the name only, `.` matching
any character, and the greedy `(.*)` taking the longest prefix that lets the
rest of the pattern match. -/

/-- `QCJob._find_fastq_files_in_run_dir` (QCJob.py lines 173-181): for every
walked directory, keep the files ending in `fastq.gz`, and record for each
the path `join(search_path, some_file)` — the top-level search directory
joined with the base name, not the walked root. -/
def find_fastq_files_in_run_dir (search_path : List Char) :
    List (List Char × List (List Char)) → List (List Char)
  | [] => []
  | rd :: rest =>
    ((rd.2.filter ends_with_fastq_gz).map (fun f => pjoin search_path f)) ++
      find_fastq_files_in_run_dir search_path rest

/-- Does this string begin with `_R` digit `_` digit digit digit, any
character, `fastq`, any character, `gz` — the part of the pattern
`(.*)_R\d_\d\d\d.fastq.gz` after the group?  (Both unescaped `.` of the
pattern — the one before `fastq` and the one between `fastq` and `gz` —
match any character; nothing anchors the end, so trailing characters are
allowed.) -/
def tail_matches : List Char → Bool
  | a :: b :: md :: d :: i1 :: i2 :: i3 :: _c1 :: f1 :: a1 :: s1 :: t1 :: q1 ::
      _c2 :: g1 :: z1 :: _rest =>
    a == '_' && b == 'R' && md.isDigit && d == '_' &&
      i1.isDigit && i2.isDigit && i3.isDigit &&
      f1 == 'f' && a1 == 'a' && s1 == 's' && t1 == 't' && q1 == 'q' &&
      g1 == 'g' && z1 == 'z'
  | _ => false

/-- `re.match(r'(.*)_R\d_\d\d\d.fastq.gz', file_name)` followed by
`m.group(1)` (QCJob.py lines 200-202): the greedy `(.*)` makes the match use
the largest split point whose remainder fits the rest of the pattern. -/
def extract_sample_id (s : List Char) : Option (List Char) :=
  ((List.range (s.length + 1)).reverse.find? (fun i => tail_matches (s.drop i))).map
    (fun i => s.take i)

/-- `QCJob._find_fastq_files` (QCJob.py lines 183-208): restrict the
`(sample_id, sample_project)` pairs to the project, then keep every
discovered file whose base name matches the pattern with an extracted
sample id among the project's ids. -/
def find_fastq_files (project_name : List Char)
    (sample_ids : List (List Char × List Char))
    (files_found : List (List Char)) : List (List Char) :=
  let ids := (sample_ids.filter (fun c => c.2 == project_name)).map (fun x => x.1)
  files_found.filter (fun some_file =>
    match extract_sample_id (path_split some_file).2 with
    | some sid => ids.contains sid
    | none => false)

/-- Modelled from the spec ("a discovered filesystem path conforming to the
pattern sample_id, then the marker `_R`, a mate in 1,2, `_`, a 3-digit
index, and the literal suffix `.fastq.gz`"): the whole base name must have
exactly that shape. -/
def tail_matches_spec : List Char → Bool
  | a :: b :: md :: d :: i1 :: i2 :: i3 :: rest =>
    a == '_' && b == 'R' && (md == '1' || md == '2') && d == '_' &&
      i1.isDigit && i2.isDigit && i3.isDigit && rest == (".fastq.gz".toList)
  | _ => false

/-- Modelled from the spec: `resolve` keeps a file exactly when some split of
its base name is a known sample id followed by a spec-conforming tail. -/
def find_fastq_files_spec (project_name : List Char)
    (sample_ids : List (List Char × List Char))
    (files_found : List (List Char)) : List (List Char) :=
  let ids := (sample_ids.filter (fun c => c.2 == project_name)).map (fun x => x.1)
  files_found.filter (fun some_file =>
    let name := (path_split some_file).2
    (List.range (name.length + 1)).any (fun i =>
      ids.contains (name.take i) && tail_matches_spec (name.drop i)))

/-! ## The job-script generator: `QCJob._generate_job_script`
(QCJob.py lines 210-275)

The pure content of the generated script (the `lines` list) and the two file
writes the function performs, in program order.  The configuration captures
the `self` fields the function reads. -/

/-- The `self` fields of `QCJob` that `_generate_job_script` reads. -/
structure QCJobConfig where
  qiita_job_id : List Char
  queue_name : List Char
  node_count : Nat
  nprocs : Nat
  wall_time_limit : Nat
  jmem : List Char
  pool_size : Nat
  modules_to_load : List (List Char)
  run_dir : List Char
deriving DecidableEq

/-- The `.array-details` side-file path for a project:
`join(run_dir, 'split_file_' + project_name + '.array-details')`
(QCJob.py lines 224-225). -/
def sh_details_path (cfg : QCJobConfig) (project_name : List Char) : List Char :=
  pjoin cfg.run_dir (("split_file_").toList ++ project_name ++ (".array-details").toList)

/-- The `lines` list assembled by `_generate_job_script`
(QCJob.py lines 235-267), one element per `lines.append`. -/
def job_script_lines (cfg : QCJobConfig)
    (project_name output_log_path error_log_path sh_details_fp : List Char)
    (cmds : List (List Char)) : List (List Char) :=
  [("#!/bin/bash").toList,
   ("#PBS -N ").toList ++ cfg.qiita_job_id ++ ("_QCJob_").toList ++ project_name,
   ("#PBS -q ").toList ++ cfg.queue_name,
   ("#PBS -l nodes=").toList ++ natChars cfg.node_count ++ (":ppn=").toList ++
     natChars cfg.nprocs,
   ("#PBS -V").toList,
   ("#PBS -l walltime=").toList ++ natChars cfg.wall_time_limit ++ (":00:00").toList,
   ("#PBS -l mem=").toList ++ cfg.jmem,
   ("#PBS -o localhost:").toList ++ output_log_path ++ (".$\x7bPBS_ARRAYID\x7d").toList,
   ("#PBS -e localhost:").toList ++ error_log_path ++ (".$\x7bPBS_ARRAYID\x7d").toList,
   ("#PBS -t 1-").toList ++ natChars cmds.length ++ '%' :: natChars cfg.pool_size,
   ("set -x").toList,
   ("date").toList,
   ("hostname").toList,
   ("echo $\x7bPBS_JOBID\x7d $\x7bPBS_ARRAYID\x7d").toList,
   ("cd ").toList ++ cfg.run_dir] ++
  (if cfg.modules_to_load.isEmpty then []
   else [("module load ").toList ++ joinSep ' ' cfg.modules_to_load]) ++
  [("offset=$\x7bPBS_ARRAYID\x7d").toList,
   ("step=$(( $offset - 0 ))").toList,
   ("cmd0=$(head -n $step ").toList ++ sh_details_fp ++ (" | tail -n 1)").toList,
   ("eval $cmd0").toList]

/-- Modelled from the spec ("a concurrency cap of min(P, N) when P > N is
provided"): the array directive the spec describes. -/
def array_directive_spec (task_count pool : Nat) : List Char :=
  ("#PBS -t 1-").toList ++ natChars task_count ++ '%' :: natChars (min pool task_count)

/-- The file writes `_generate_job_script` performs, in program order
(QCJob.py lines 269-273): first the job script, then the `.array-details`
command table.  No error path exists: the function writes both files for
every `cmds`, including an empty one. -/
def generate_job_script_writes (cfg : QCJobConfig)
    (project_name job_script_path output_log_path error_log_path : List Char)
    (cmds : List (List Char)) : List (List Char × List Char) :=
  let sh_details_fp := sh_details_path cfg project_name
  [(job_script_path,
    joinSep '\n' (job_script_lines cfg project_name output_log_path
      error_log_path sh_details_fp cmds)),
   (sh_details_fp, joinSep '\n' cmds)]

/-- The task body's command lookup,
`cmd0=$(head -n $step FILE | tail -n 1)` with `step = PBS_ARRAYID - 0`
(QCJob.py lines 264-266): the last of the first `idx` lines of the command
table, or nothing when the table has no line to offer. -/
def task_command (idx : Nat) (table : List Char) : Option (List Char) :=
  ((split_lines table).take idx).getLast?

/-! ## Orchestration order (QCJob.py lines 76-86 and 112-121)

`__init__` loops over the projects resolving files and generating scripts
(each generation writing the job script and then the command table);
`run` loops over the same projects submitting with `qsub` and then
quarantining.  The observable filesystem/scheduler events, in program
order. -/

/-- One observable orchestration event. -/
inductive QCEvent where
  /-- `_find_fastq_files(project_name)` (line 78) -/
  | find_fastq (project : List Char)
  /-- write of the job script file (lines 269-270) -/
  | write_script (project : List Char)
  /-- write of the `.array-details` command table (lines 272-273) -/
  | write_table (project : List Char)
  /-- `self.qsub(...)` submission (line 115) -/
  | qsub_submit (project : List Char)
  /-- `self._filter(...)` quarantine pass (line 120) -/
  | run_filter (project : List Char)
deriving DecidableEq

/-- Events of the `__init__` loop (QCJob.py lines 76-86), with the write
order of `_generate_job_script` (lines 269-273) inlined per project. -/
def init_trace : List (List Char) → List QCEvent
  | [] => []
  | p :: rest =>
    QCEvent.find_fastq p :: QCEvent.write_script p :: QCEvent.write_table p ::
      init_trace rest

/-- Events of the `run` loop (QCJob.py lines 112-121). -/
def run_trace : List (List Char) → List QCEvent
  | [] => []
  | p :: rest => QCEvent.qsub_submit p :: QCEvent.run_filter p :: run_trace rest

/-- The full event order of one `QCJob` lifetime: construction, then `run`. -/
def qcjob_trace (projects : List (List Char)) : List QCEvent :=
  init_trace projects ++ run_trace projects

/-! ## Concrete fixtures for counterexamples and witnesses -/

/-- A configuration with pool size 5. -/
def cfgPool5 : QCJobConfig :=
  ⟨("qid1").toList, ("qqueue").toList, 1, 16, 36, ("8gb").toList, 5, [],
    ("/runs/r1").toList⟩

/-- A configuration with pool size 16. -/
def cfgPool16 : QCJobConfig :=
  ⟨("qid1").toList, ("qqueue").toList, 1, 16, 36, ("8gb").toList, 16, [],
    ("/runs/r1").toList⟩

/-- Directory holding the mate-1 file of sample `A_R1` (undersized) and the
healthy pair of sample `A_R2`.  The computed mate-2 name of
`A_R1_R1_001.fastq.gz` collides with the mate-1 file of sample `A_R2`. -/
def dirCollide : Dir :=
  [(("A_R1_R1_001.fastq.gz").toList, 100),
   (("A_R2_R1_001.fastq.gz").toList, 1000),
   (("A_R2_R2_001.fastq.gz").toList, 1000)]

/-- Directory where sample `A_R2` has an undersized mate-2 file and sample
`A_R1` contributes a lone oversized mate-1 file whose computed mate-2 name is
`A_R2`'s mate-1 file. -/
def dirCollide2 : Dir :=
  [(("A_R1_R1_001.fastq.gz").toList, 1000),
   (("A_R2_R1_001.fastq.gz").toList, 1000),
   (("A_R2_R2_001.fastq.gz").toList, 100)]

/-- One undersized mate-1 file whose mate-2 file is missing. -/
def dirLoneSmall : Dir := [(("S_R1_001.fastq.gz").toList, 100)]

/-- One oversized mate-1 file whose mate-2 file is missing. -/
def dirLoneBig : Dir := [(("S_R1_001.fastq.gz").toList, 1000)]

/-- One undersized pair and one healthy pair, with ordinary names. -/
def dirTwoPairs : Dir :=
  [(("S1_R1_001.fastq.gz").toList, 100), (("S1_R2_001.fastq.gz").toList, 2000),
   (("S2_R1_001.fastq.gz").toList, 900), (("S2_R2_001.fastq.gz").toList, 900)]

/-- An undersized pair: mate-1 of 400 bytes, mate-2 of 10000 bytes. -/
def dirOnePair : Dir :=
  [(("S1_R1_001.fastq.gz").toList, 400), (("S1_R2_001.fastq.gz").toList, 10000)]

/-! ## Helper lemmas about the quarantine model -/

theorem statDir_of_mem_nodup {dir : Dir} {name : List Char} {sz : Nat}
    (hnd : (dir.map (fun p => p.1)).Nodup) (hmem : (name, sz) ∈ dir) :
    statDir dir name = some sz := by
  induction dir with
  | nil => simp at hmem
  | cons e rest ih =>
    simp only [List.map_cons, List.nodup_cons] at hnd
    rcases List.mem_cons.mp hmem with h | h
    · subst h
      simp [statDir]
    · have hne : (e.1 == name) = false := by
        refine beq_eq_false_iff_ne.mpr (fun heq => ?_)
        exact hnd.1 (heq ▸ List.mem_map.mpr ⟨(name, sz), h, rfl⟩)
      have hrec := ih hnd.2 h
      unfold statDir at hrec ⊢
      rw [List.find?_cons]
      simp only [hne]
      exact hrec

theorem statDir_none_iff {dir : Dir} {name : List Char} :
    statDir dir name = none ↔ ∀ p ∈ dir, p.1 ≠ name := by
  simp [statDir, List.find?_eq_none]

theorem statDir_filter_none {dir : Dir} {name : List Char}
    (pr : List Char × Nat → Bool) (h : statDir dir name = none) :
    statDir (dir.filter pr) name = none := by
  rw [statDir_none_iff] at h ⊢
  exact fun p hp => h p (List.mem_filter.mp hp).1

theorem statDir_filter_kept {dir : Dir} {name : List Char}
    {pr : List Char × Nat → Bool}
    (h : ∀ p ∈ dir, p.1 = name → pr p = true) :
    statDir (dir.filter pr) name = statDir dir name := by
  induction dir with
  | nil => rfl
  | cons e rest ih =>
    have ihr := ih (fun p hp hpn => h p (List.mem_cons_of_mem e hp) hpn)
    by_cases he : e.1 = name
    · have hpr : pr e = true := h e (List.mem_cons_self e rest) he
      rw [List.filter_cons_of_pos hpr]
      have hb : (e.1 == name) = true := beq_iff_eq.mpr he
      unfold statDir
      rw [List.find?_cons, List.find?_cons]
      simp only [hb]
    · have hb : (e.1 == name) = false := beq_eq_false_iff_ne.mpr he
      cases hpr : pr e
      · rw [List.filter_cons_of_neg (by simp [hpr])]
        rw [ihr]
        unfold statDir
        rw [List.find?_cons]
        simp only [hb]
      · rw [List.filter_cons_of_pos hpr]
        unfold statDir
        rw [List.find?_cons, List.find?_cons]
        simp only [hb]
        exact ihr

theorem movePhase_ok : ∀ {el : List (List Char)} {d d' : Dir} {mv : List (List Char)},
    movePhase d el = (Except.ok (), d', mv) →
    mv = el ∧ d' = d.filter (fun p => !(el.contains p.1)) := by
  intro el
  induction el with
  | nil =>
    intro d d' mv h
    simp only [movePhase, Prod.mk.injEq] at h
    refine ⟨h.2.2.symm, ?_⟩
    rw [← h.2.1]
    simp
  | cons item rest ih =>
    intro d d' mv h
    simp only [movePhase] at h
    cases hs : statDir d item with
    | none => rw [hs] at h; simp at h
    | some sz =>
      rw [hs] at h
      cases hmp : movePhase (d.filter (fun p => p.1 != item)) rest with
      | mk r rest2 =>
        cases rest2 with
        | mk dfin moved =>
          rw [hmp] at h
          simp only [Prod.mk.injEq] at h
          obtain ⟨hr, hd, hm⟩ := h
          subst hr
          obtain ⟨hmv, hdf⟩ := ih hmp
          subst hmv
          constructor
          · exact hm.symm
          · rw [← hd, hdf, List.filter_filter]
            refine List.filter_congr (fun x _ => ?_)
            simp only [List.contains_cons, Bool.not_or, bne]
            exact Bool.and_comm _ _

theorem movePhase_error_missing :
    ∀ {el : List (List Char)} {d : Dir} {item : List Char}, item ∈ el →
      statDir d item = none → (movePhase d el).1 = Except.error () := by
  intro el
  induction el with
  | nil => intro d item h; simp at h
  | cons hd rest ih =>
    intro d item hmem hnone
    cases hs : statDir d hd with
    | none => simp [movePhase, hs]
    | some sz =>
      have hne : item ≠ hd := by
        intro heq; rw [heq, hs] at hnone; exact Option.noConfusion hnone
      have hitem : item ∈ rest := by
        rcases List.mem_cons.mp hmem with h | h
        · exact absurd h hne
        · exact h
      have hnone' : statDir (d.filter (fun p => p.1 != hd)) item = none :=
        statDir_filter_none _ hnone
      have hrec := ih hitem hnone'
      simp only [movePhase, hs]
      cases hmp : movePhase (d.filter (fun p => p.1 != hd)) rest with
      | mk r rest2 =>
        rw [hmp] at hrec
        cases rest2 with
        | mk dfin moved => exact hrec

theorem scan_ok_cons {dir : Dir} {m : Nat} {e : List Char × Nat}
    {rest : List (List Char × Nat)} {el : List (List Char)} :
    scanEntries dir m (e :: rest) = Except.ok el ↔
      ∃ l l', entryCheck dir m e.1 = Except.ok l ∧
        scanEntries dir m rest = Except.ok l' ∧ el = l ++ l' := by
  simp only [scanEntries]
  cases h1 : entryCheck dir m e.1 with
  | error u => simp
  | ok l =>
    cases h2 : scanEntries dir m rest with
    | error u => simp
    | ok l' =>
      simp only [Except.ok.injEq]
      constructor
      · intro h; exact ⟨l, l', rfl, rfl, h.symm⟩
      · rintro ⟨a, b, ha, hb, hel⟩
        cases ha; cases hb; exact hel.symm

theorem scan_ok_entry {dir : Dir} {m : Nat} :
    ∀ {entries : List (List Char × Nat)} {el : List (List Char)},
      scanEntries dir m entries = Except.ok el → ∀ e ∈ entries,
      ∃ l, entryCheck dir m e.1 = Except.ok l ∧ ∀ x ∈ l, x ∈ el := by
  intro entries
  induction entries with
  | nil => intro el _ e he; simp at he
  | cons a rest ih =>
    intro el h e he
    obtain ⟨l, l', h1, h2, rfl⟩ := scan_ok_cons.mp h
    rcases List.mem_cons.mp he with rfl | he'
    · exact ⟨l, h1, fun x hx => List.mem_append_left _ hx⟩
    · obtain ⟨l0, hc, hsub⟩ := ih h2 e he'
      exact ⟨l0, hc, fun x hx => List.mem_append_right _ (hsub x hx)⟩

theorem scan_ok_mem {dir : Dir} {m : Nat} :
    ∀ {entries : List (List Char × Nat)} {el : List (List Char)},
      scanEntries dir m entries = Except.ok el → ∀ x ∈ el,
      ∃ e ∈ entries, ∃ l, entryCheck dir m e.1 = Except.ok l ∧ x ∈ l := by
  intro entries
  induction entries with
  | nil =>
    intro el h x hx
    simp only [scanEntries, Except.ok.injEq] at h
    rw [← h] at hx; simp at hx
  | cons a rest ih =>
    intro el h x hx
    obtain ⟨l, l', h1, h2, rfl⟩ := scan_ok_cons.mp h
    rcases List.mem_append.mp hx with hl | hl'
    · exact ⟨a, List.mem_cons_self a rest, l, h1, hl⟩
    · obtain ⟨e, he, l0, hc, hx0⟩ := ih h2 x hl'
      exact ⟨e, List.mem_cons_of_mem a he, l0, hc, hx0⟩

theorem scan_all_nil {dir : Dir} {m : Nat} :
    ∀ {entries : List (List Char × Nat)},
      (∀ e ∈ entries, entryCheck dir m e.1 = Except.ok []) →
      scanEntries dir m entries = Except.ok [] := by
  intro entries
  induction entries with
  | nil => intro _; rfl
  | cons a rest ih =>
    intro h
    have ha := h a (List.mem_cons_self a rest)
    have hr := ih (fun e he => h e (List.mem_cons_of_mem a he))
    simp [scanEntries, ha, hr]

theorem scan_error_of_entry {dir : Dir} {m : Nat} :
    ∀ {entries : List (List Char × Nat)} {e : List Char × Nat}, e ∈ entries →
      entryCheck dir m e.1 = Except.error () →
      scanEntries dir m entries = Except.error () := by
  intro entries
  induction entries with
  | nil => intro e he; simp at he
  | cons a rest ih =>
    intro e he hc
    rcases List.mem_cons.mp he with rfl | he'
    · simp [scanEntries, hc]
    · cases ha : entryCheck dir m a.1 with
      | error u => cases u; simp [scanEntries, ha]
      | ok l => simp [scanEntries, ha, ih he' hc]

theorem entryCheck_no_r1 {dir : Dir} {m : Nat} {entry : List Char}
    (h : contains_R1 entry = false) : entryCheck dir m entry = Except.ok [] := by
  simp [entryCheck, h]

theorem entryCheck_small {dir : Dir} {m : Nat} {entry : List Char} {s1 : Nat}
    (hr1 : contains_R1 entry = true) (h1 : statDir dir entry = some s1)
    (hle : s1 ≤ m) :
    entryCheck dir m entry = Except.ok [entry, replace_R1_R2 entry] := by
  simp [entryCheck, hr1, h1, hle]

theorem entryCheck_small_rev {dir : Dir} {m : Nat} {entry : List Char} {s1 s2 : Nat}
    (hr1 : contains_R1 entry = true) (h1 : statDir dir entry = some s1)
    (h2 : statDir dir (replace_R1_R2 entry) = some s2) (hle : s2 ≤ m) :
    entryCheck dir m entry = Except.ok [entry, replace_R1_R2 entry] := by
  by_cases hs1 : s1 ≤ m
  · exact entryCheck_small hr1 h1 hs1
  · simp [entryCheck, hr1, h1, hs1, h2, hle]

theorem entryCheck_big_big {dir : Dir} {m : Nat} {entry : List Char} {s1 s2 : Nat}
    (hr1 : contains_R1 entry = true) (h1 : statDir dir entry = some s1)
    (hn1 : ¬ s1 ≤ m) (h2 : statDir dir (replace_R1_R2 entry) = some s2)
    (hn2 : ¬ s2 ≤ m) : entryCheck dir m entry = Except.ok [] := by
  simp [entryCheck, hr1, h1, hn1, h2, hn2]

theorem entryCheck_error_missing_rev {dir : Dir} {m : Nat} {entry : List Char}
    {s1 : Nat} (hr1 : contains_R1 entry = true) (h1 : statDir dir entry = some s1)
    (hn1 : ¬ s1 ≤ m) (h2 : statDir dir (replace_R1_R2 entry) = none) :
    entryCheck dir m entry = Except.error () := by
  simp [entryCheck, hr1, h1, hn1, h2]

theorem entryCheck_ok_cases {dir : Dir} {m : Nat} {entry : List Char}
    {l : List (List Char)} (h : entryCheck dir m entry = Except.ok l) :
    l = [] ∨ (l = [entry, replace_R1_R2 entry] ∧ contains_R1 entry = true) := by
  by_cases hr1 : contains_R1 entry = true
  · cases h1 : statDir dir entry with
    | none => simp [entryCheck, hr1, h1] at h
    | some s1 =>
      by_cases hs1 : s1 ≤ m
      · rw [entryCheck_small hr1 h1 hs1] at h
        right; exact ⟨(Except.ok.injEq _ _ ▸ h).symm ▸ rfl, hr1⟩
      · cases h2 : statDir dir (replace_R1_R2 entry) with
        | none => rw [entryCheck_error_missing_rev hr1 h1 hs1 h2] at h; cases h
        | some s2 =>
          by_cases hs2 : s2 ≤ m
          · rw [entryCheck_small_rev hr1 h1 h2 hs2] at h
            right
            refine ⟨?_, hr1⟩
            cases h; rfl
          · rw [entryCheck_big_big hr1 h1 hs1 h2 hs2] at h
            left; cases h; rfl
  · have h0 : contains_R1 entry = false := Bool.not_eq_true _ ▸ hr1
    have hck : entryCheck dir m entry = Except.ok [] := entryCheck_no_r1 h0
    rw [hck] at h; left; cases h; rfl

theorem entryCheck_ok_nil_inv {dir : Dir} {m : Nat} {entry : List Char}
    (hr1 : contains_R1 entry = true) (h : entryCheck dir m entry = Except.ok []) :
    ∃ s1 s2, statDir dir entry = some s1 ∧ ¬ s1 ≤ m ∧
      statDir dir (replace_R1_R2 entry) = some s2 ∧ ¬ s2 ≤ m := by
  cases h1 : statDir dir entry with
  | none => simp [entryCheck, hr1, h1] at h
  | some s1 =>
    by_cases hs1 : s1 ≤ m
    · rw [entryCheck_small hr1 h1 hs1] at h; cases h
    · cases h2 : statDir dir (replace_R1_R2 entry) with
      | none => rw [entryCheck_error_missing_rev hr1 h1 hs1 h2] at h; cases h
      | some s2 =>
        by_cases hs2 : s2 ≤ m
        · rw [entryCheck_small_rev hr1 h1 h2 hs2] at h; cases h
        · exact ⟨s1, s2, rfl, hs1, rfl, hs2⟩

theorem contains_false_iff {l : List (List Char)} {x : List Char} :
    l.contains x = false ↔ x ∉ l := by
  simp [List.contains]

theorem pyFilter_ok_inv {dir : Dir} {m : Nat}
    (hok : (pyFilter dir m).raised = false) :
    ∃ el, scanEntries dir m dir = Except.ok el ∧
      (pyFilter dir m).moved = el ∧
      (pyFilter dir m).srcDir = dir.filter (fun p => !(el.contains p.1)) := by
  cases hscan : scanEntries dir m dir with
  | error u =>
    cases u
    have hpf : pyFilter dir m = ⟨none, true, dir, []⟩ := by
      simp only [pyFilter, hscan]
    rw [hpf] at hok; simp at hok
  | ok el =>
    cases hmp : movePhase dir el with
    | mk r rest2 =>
      cases rest2 with
      | mk dfin mv =>
        cases r with
        | error u =>
          cases u
          have hpf : pyFilter dir m = ⟨none, true, dfin, mv⟩ := by
            simp only [pyFilter, hscan, hmp]
          rw [hpf] at hok; simp at hok
        | ok u =>
          cases u
          have hpf : pyFilter dir m = ⟨none, false, dfin, mv⟩ := by
            simp only [pyFilter, hscan, hmp]
          obtain ⟨hmv, hdf⟩ := movePhase_ok hmp
          rw [hpf]
          exact ⟨el, rfl, hmv, by rw [hdf]⟩

theorem pyFilter_of_scan_nil {d : Dir} {m : Nat}
    (h : scanEntries d m d = Except.ok []) :
    pyFilter d m = ⟨none, false, d, []⟩ := by
  simp only [pyFilter, h, movePhase]

/-! ## Claim C3: quarantine pairing -/

/-- C3 (amended): on a directory whose entries have pairwise distinct names
and in which no computed mate-2 name itself contains the `_R1_` marker, and
given a quarantine run that raised no error, a mate-1 file and its computed
mate-2 file (which exists, with size `s2`) are both moved if and only if at
least one of the two sizes is at most `minimum_bytes`. -/
theorem c3_pair_moved_iff
    (dir : Dir) (m : Nat) (name : List Char) (sz s2 : Nat)
    (hnodup : (dir.map (fun p => p.1)).Nodup)
    (hsafe : ∀ p ∈ dir, contains_R1 p.1 = true →
      contains_R1 (replace_R1_R2 p.1) = false)
    (hmem : (name, sz) ∈ dir) (hr1 : contains_R1 name = true)
    (hrev : statDir dir (replace_R1_R2 name) = some s2)
    (hok : (pyFilter dir m).raised = false) :
    (name ∈ (pyFilter dir m).moved ∧
      replace_R1_R2 name ∈ (pyFilter dir m).moved) ↔ (sz ≤ m ∨ s2 ≤ m) := by
  obtain ⟨el, hscan, hmv, _⟩ := pyFilter_ok_inv hok
  rw [hmv]
  have hstat : statDir dir name = some sz := statDir_of_mem_nodup hnodup hmem
  constructor
  · rintro ⟨hn, -⟩
    obtain ⟨e, he, l, hc, hx⟩ := scan_ok_mem hscan name hn
    rcases entryCheck_ok_cases hc with rfl | ⟨rfl, her1⟩
    · simp at hx
    · rcases List.mem_cons.mp hx with heq | hx2
      · rw [← heq] at hc
        by_cases hs1 : sz ≤ m
        · exact Or.inl hs1
        · cases h2 : statDir dir (replace_R1_R2 name) with
          | none => rw [entryCheck_error_missing_rev hr1 hstat hs1 h2] at hc; simp at hc
          | some s2' =>
            rw [h2] at hrev
            have hs2' : s2' = s2 := Option.some.inj hrev
            by_cases hle : s2' ≤ m
            · exact Or.inr (hs2' ▸ hle)
            · rw [entryCheck_big_big hr1 hstat hs1 h2 hle] at hc; simp at hc
      · exfalso
        have : name = replace_R1_R2 e.1 := by simpa using hx2
        have hfalse := hsafe e he her1
        rw [← this] at hfalse
        rw [hr1] at hfalse
        cases hfalse
  · intro hcond
    have hc : entryCheck dir m name = Except.ok [name, replace_R1_R2 name] := by
      rcases hcond with hle | hle2
      · exact entryCheck_small hr1 hstat hle
      · exact entryCheck_small_rev hr1 hstat hrev hle2
    obtain ⟨l, hc', hsub⟩ := scan_ok_entry hscan (name, sz) hmem
    rw [hc] at hc'
    cases hc'
    exact ⟨hsub name (by simp), hsub (replace_R1_R2 name) (by simp)⟩

/-- C3 counterexample: in a directory holding the undersized mate-1 file of
sample `A_R1` together with the healthy pair of sample `A_R2` (both members
1000 bytes, threshold 500), the run raises no error yet moves the mate-1
file `A_R2_R1_001.fastq.gz` of the healthy pair — whose own mate-2 file
`A_R2_R2_001.fastq.gz` stays behind.  The claim's "a pair where both sides
exceed the threshold is never moved" is false as stated. -/
theorem c3_counterexample :
    (pyFilter dirCollide 500).raised = false ∧
    contains_R1 (("A_R2_R1_001.fastq.gz").toList) = true ∧
    statDir dirCollide (("A_R2_R1_001.fastq.gz").toList) = some 1000 ∧
    replace_R1_R2 (("A_R2_R1_001.fastq.gz").toList) =
      ("A_R2_R2_001.fastq.gz").toList ∧
    statDir dirCollide (("A_R2_R2_001.fastq.gz").toList) = some 1000 ∧
    ¬ (1000 : Nat) ≤ 500 ∧
    ("A_R2_R1_001.fastq.gz").toList ∈ (pyFilter dirCollide 500).moved ∧
    ("A_R2_R2_001.fastq.gz").toList ∉ (pyFilter dirCollide 500).moved := by
  decide

/-- C3 witness: the spec's own example — a mate-1 file of 400 bytes and its
mate-2 of 10000 bytes, threshold 500 — satisfies the amended theorem's
hypotheses, and both members are moved. -/
theorem c3_witness :
    ("S1_R1_001.fastq.gz").toList ∈ (pyFilter dirOnePair 500).moved ∧
    replace_R1_R2 (("S1_R1_001.fastq.gz").toList) ∈ (pyFilter dirOnePair 500).moved := by
  exact (c3_pair_moved_iff dirOnePair 500 (("S1_R1_001.fastq.gz").toList) 400 10000
    (by decide) (by decide) (by decide) (by decide) (by decide) (by decide)).mpr
    (Or.inl (by decide))

/-! ## Claim C4: quarantine idempotence -/

/-- C4 (amended): on a directory in which no computed mate-2 name itself contains the `_R1_` marker and
distinct mate-1 names have distinct computed mate-2 names, a quarantine
run that raised no error leaves a directory on which a second run moves
nothing and raises no error. -/
theorem c4_idempotent
    (dir : Dir) (m : Nat)
    (hsafe : ∀ p ∈ dir, contains_R1 p.1 = true →
      contains_R1 (replace_R1_R2 p.1) = false)
    (hinj : ∀ p ∈ dir, ∀ q ∈ dir, contains_R1 p.1 = true →
      contains_R1 q.1 = true → replace_R1_R2 p.1 = replace_R1_R2 q.1 →
      p.1 = q.1)
    (hok : (pyFilter dir m).raised = false) :
    pyFilter ((pyFilter dir m).srcDir) m =
      ⟨none, false, (pyFilter dir m).srcDir, []⟩ := by
  obtain ⟨el, hscan, hmv, hdf⟩ := pyFilter_ok_inv hok
  have hsub : ∀ q ∈ (pyFilter dir m).srcDir, q ∈ dir ∧ q.1 ∉ el := by
    intro q hq
    rw [hdf] at hq
    have h := List.mem_filter.mp hq
    refine ⟨h.1, ?_⟩
    have hb : (el.contains q.1) = false := by simpa using h.2
    exact contains_false_iff.mp hb
  have hmain : ∀ q ∈ (pyFilter dir m).srcDir,
      entryCheck ((pyFilter dir m).srcDir) m q.1 = Except.ok [] := by
    intro q hq
    obtain ⟨hqdir, hqel⟩ := hsub q hq
    by_cases hr1 : contains_R1 q.1 = true
    · obtain ⟨l, hc, hsubl⟩ := scan_ok_entry hscan q hqdir
      have hqnotl : q.1 ∉ l := fun hx => hqel (hsubl _ hx)
      rcases entryCheck_ok_cases hc with rfl | ⟨rfl, -⟩
      · obtain ⟨s1, s2, hs1, hn1, hs2, hn2⟩ := entryCheck_ok_nil_inv hr1 hc
        have hrevnel : replace_R1_R2 q.1 ∉ el := by
          intro hrev
          obtain ⟨e, he, l2, hc2, hx2⟩ := scan_ok_mem hscan _ hrev
          rcases entryCheck_ok_cases hc2 with rfl | ⟨rfl, her1⟩
          · simp at hx2
          · rcases List.mem_cons.mp hx2 with heq | hx3
            · have hfalse := hsafe q hqdir hr1
              rw [heq] at hfalse
              rw [her1] at hfalse
              cases hfalse
            · have heq2 : replace_R1_R2 q.1 = replace_R1_R2 e.1 := by
                simpa using hx3
              have hq1e1 : q.1 = e.1 := hinj q hqdir e he hr1 her1 heq2
              rw [← hq1e1] at hc2
              rw [hc] at hc2
              simp at hc2
        have hkeep1 : statDir ((pyFilter dir m).srcDir) q.1 = statDir dir q.1 := by
          rw [hdf]
          refine statDir_filter_kept (fun p hp hpn => ?_)
          rw [hpn]
          simpa using hqel
        have hkeep2 : statDir ((pyFilter dir m).srcDir) (replace_R1_R2 q.1) =
            statDir dir (replace_R1_R2 q.1) := by
          rw [hdf]
          refine statDir_filter_kept (fun p hp hpn => ?_)
          rw [hpn]
          simpa using hrevnel
        exact entryCheck_big_big hr1 (hkeep1.trans hs1) hn1 (hkeep2.trans hs2) hn2
      · exact absurd (by simp : q.1 ∈ [q.1, replace_R1_R2 q.1]) hqnotl
    · exact entryCheck_no_r1 (Bool.not_eq_true _ ▸ hr1)
  have hscan2 : scanEntries ((pyFilter dir m).srcDir) m ((pyFilter dir m).srcDir) =
      Except.ok [] := scan_all_nil hmain
  exact pyFilter_of_scan_nil hscan2

/-- C4 counterexample: in a directory holding the healthy pair of sample
`A_R2` plus the lone oversized mate-1 file of sample `A_R1` — whose computed
mate-2 name collides with `A_R2`'s mate-1 file — the first quarantine run
succeeds (it moves the `A_R2` pair, whose mate-2 side is undersized), but
the second run immediately raises a missing-file error.  The claim's "for
every directory state ... raises no error" is false as stated. -/
theorem c4_counterexample :
    (pyFilter dirCollide2 500).raised = false ∧
    (pyFilter (pyFilter dirCollide2 500).srcDir 500).raised = true := by
  decide

/-- C4 witness: on a directory of two ordinary pairs (one undersized, one
healthy) the amended theorem applies: after the first run the second run
moves nothing and raises no error. -/
theorem c4_witness :
    pyFilter ((pyFilter dirTwoPairs 500).srcDir) 500 =
      ⟨none, false, (pyFilter dirTwoPairs 500).srcDir, []⟩ :=
  c4_idempotent dirTwoPairs 500 (by decide) (by decide) (by decide)

/-! ## Claim C8: quarantine return value -/

/-- C8 (amended): `_filter` performs the moves but returns `None`; on a run
that raises no error the files deposited in the quarantine directory are
exactly the scan's `empty_list`.  The moved-path list is never returned to
the caller. -/
theorem c8_returns_none (dir : Dir) (m : Nat) :
    (pyFilter dir m).retval = none ∧
    ((pyFilter dir m).raised = false →
      ∃ el, scanEntries dir m dir = Except.ok el ∧ (pyFilter dir m).moved = el) := by
  constructor
  · cases hscan : scanEntries dir m dir with
    | error u => simp [pyFilter, hscan]
    | ok el =>
      cases hmp : movePhase dir el with
      | mk r rest2 =>
        cases rest2 with
        | mk dfin mv =>
          cases r with
          | ok u => simp [pyFilter, hscan, hmp]
          | error u => simp [pyFilter, hscan, hmp]
  · intro hok
    obtain ⟨el, hscan, hmv, -⟩ := pyFilter_ok_inv hok
    exact ⟨el, hscan, hmv⟩

/-- C8 counterexample: on the spec's example pair (400 and 10000 bytes,
threshold 500) the operation moves both files but returns `None`, not the
list of moved paths the spec's contract promises. -/
theorem c8_counterexample :
    (pyFilter dirOnePair 500).moved =
      [("S1_R1_001.fastq.gz").toList, ("S1_R2_001.fastq.gz").toList] ∧
    (pyFilter dirOnePair 500).retval = none ∧
    quarantine_spec_retval dirOnePair 500 =
      some [("S1_R1_001.fastq.gz").toList, ("S1_R2_001.fastq.gz").toList] ∧
    (pyFilter dirOnePair 500).retval ≠ quarantine_spec_retval dirOnePair 500 := by
  decide

/-- C8 witness: the amended theorem applied to the two-pair directory. -/
theorem c8_witness :
    (pyFilter dirTwoPairs 500).retval = none ∧
    ∃ el, scanEntries dirTwoPairs 500 dirTwoPairs = Except.ok el ∧
      (pyFilter dirTwoPairs 500).moved = el :=
  ⟨(c8_returns_none dirTwoPairs 500).1,
   (c8_returns_none dirTwoPairs 500).2 (by decide)⟩

/-! ## Claim C9: missing mate-2 file -/

/-- C9 (amended): take a directory with pairwise distinct names holding a
mate-1 file whose computed mate-2 name is absent.  If the mate-1 file's size
exceeds the threshold, the scan itself raises and nothing has been moved
(state unchanged); but if the mate-1 file is undersized, the short-circuited
`or` never stats the missing mate, the scan completes, and the error
surfaces only during the move loop — after files, the mate-1 file among
them, may already have been moved. -/
theorem c9_missing_mate
    (dir : Dir) (m : Nat) (name : List Char) (sz : Nat)
    (hnodup : (dir.map (fun p => p.1)).Nodup)
    (hmem : (name, sz) ∈ dir) (hr1 : contains_R1 name = true)
    (hmiss : statDir dir (replace_R1_R2 name) = none) :
    (¬ sz ≤ m → pyFilter dir m = ⟨none, true, dir, []⟩) ∧
    (sz ≤ m → (pyFilter dir m).raised = true) := by
  have hstat : statDir dir name = some sz := statDir_of_mem_nodup hnodup hmem
  constructor
  · intro hgt
    have hc : entryCheck dir m name = Except.error () :=
      entryCheck_error_missing_rev hr1 hstat hgt hmiss
    have hscan : scanEntries dir m dir = Except.error () :=
      scan_error_of_entry hmem hc
    simp [pyFilter, hscan]
  · intro hle
    cases hscan : scanEntries dir m dir with
    | error u => cases u; simp [pyFilter, hscan]
    | ok el =>
      have hc : entryCheck dir m name = Except.ok [name, replace_R1_R2 name] :=
        entryCheck_small hr1 hstat hle
      obtain ⟨l, hc', hsubl⟩ := scan_ok_entry hscan (name, sz) hmem
      rw [hc] at hc'
      cases hc'
      have hrev_el : replace_R1_R2 name ∈ el := hsubl _ (by simp)
      have hmv : (movePhase dir el).1 = Except.error () :=
        movePhase_error_missing hrev_el hmiss
      cases hmp : movePhase dir el with
      | mk r rest2 =>
        cases rest2 with
        | mk dfin mv =>
          rw [hmp] at hmv
          cases r with
          | ok u => simp at hmv
          | error u => cases u; simp [pyFilter, hscan, hmp]

/-- C9 counterexample: a single undersized mate-1 file with no mate-2 file
on disk.  The scan completes without error (the short-circuited `or` skips
the missing-mate stat) and lists both names; the error is raised in the move
loop only after the mate-1 file has already been moved, so the directory has
changed when the error propagates.  The claim's "error during its scan
phase, ... no file has been moved" is false as stated. -/
theorem c9_counterexample :
    contains_R1 (("S_R1_001.fastq.gz").toList) = true ∧
    statDir dirLoneSmall (replace_R1_R2 (("S_R1_001.fastq.gz").toList)) = none ∧
    scanEntries dirLoneSmall 500 dirLoneSmall =
      Except.ok [("S_R1_001.fastq.gz").toList,
        replace_R1_R2 (("S_R1_001.fastq.gz").toList)] ∧
    pyFilter dirLoneSmall 500 = ⟨none, true, [], [("S_R1_001.fastq.gz").toList]⟩ := by
  refine ⟨by decide, by decide, ?_, by decide⟩
  rfl

/-- C9 witness: both halves of the amended theorem at one-file directories:
the oversized lone mate-1 file makes the scan raise with the state unchanged;
the undersized one makes the run raise (during the move loop). -/
theorem c9_witness :
    pyFilter dirLoneBig 500 = ⟨none, true, dirLoneBig, []⟩ ∧
    (pyFilter dirLoneSmall 500).raised = true :=
  ⟨(c9_missing_mate dirLoneBig 500 (("S_R1_001.fastq.gz").toList) 1000 (by decide)
      (by decide) (by decide) (by decide)).1 (by decide),
   (c9_missing_mate dirLoneSmall 500 (("S_R1_001.fastq.gz").toList) 100 (by decide)
      (by decide) (by decide) (by decide)).2 (by decide)⟩

/-! ## Claim C5: the resolver's filename pattern -/

theorem tail_matches_inv {t : List Char} (h : tail_matches t = true) :
    ∃ md i1 i2 i3 c1 c2 rest, t = '_' :: 'R' :: md :: '_' :: i1 :: i2 :: i3 ::
      c1 :: 'f' :: 'a' :: 's' :: 't' :: 'q' :: c2 :: 'g' :: 'z' :: rest ∧
      md.isDigit = true ∧ i1.isDigit = true ∧ i2.isDigit = true ∧
      i3.isDigit = true := by
  rcases t with _ | ⟨a, _ | ⟨b, _ | ⟨md, _ | ⟨d, _ | ⟨i1, _ | ⟨i2, _ | ⟨i3, _ |
    ⟨c1, _ | ⟨f1, _ | ⟨a1, _ | ⟨s1, _ | ⟨t1, _ | ⟨q1, _ | ⟨c2, _ | ⟨g1, _ |
    ⟨z1, rest⟩⟩⟩⟩⟩⟩⟩⟩⟩⟩⟩⟩⟩⟩⟩⟩ <;>
    try exact Bool.noConfusion h
  have h' : (a == '_' && b == 'R' && md.isDigit && d == '_' &&
      i1.isDigit && i2.isDigit && i3.isDigit &&
      f1 == 'f' && a1 == 'a' && s1 == 's' && t1 == 't' && q1 == 'q' &&
      g1 == 'g' && z1 == 'z') = true := h
  simp only [Bool.and_eq_true, beq_iff_eq] at h'
  obtain ⟨⟨⟨⟨⟨⟨⟨⟨⟨⟨⟨⟨⟨ha, hb⟩, hmd⟩, hd⟩, h1⟩, h2⟩, h3⟩, hf⟩, ha1⟩, hs⟩,
    ht⟩, hq⟩, hg⟩, hz⟩ := h'
  subst ha; subst hb; subst hd; subst hf; subst ha1; subst hs; subst ht
  subst hq; subst hg; subst hz
  exact ⟨md, i1, i2, i3, c1, c2, rest, rfl, hmd, h1, h2, h3⟩

/-- C5 (amended): `_find_fastq_files` returns exactly those discovered files
whose base name begins with a known sample id of the project followed by
`_R<digit>_<digit><digit><digit><any char>fastq<any char>gz`, with the
sample id taken greedily (longest such split) and arbitrary trailing
characters allowed; every other file is silently excluded.  The mate digit
is not restricted to 1 and 2, and both unescaped dots of the pattern — the
one before `fastq` and the one between `fastq` and `gz` — match any
character. -/
theorem c5_resolve_exact
    (project_name : List Char) (sample_ids : List (List Char × List Char))
    (files_found : List (List Char)) (f : List Char) :
    (f ∈ find_fastq_files project_name sample_ids files_found ↔
      f ∈ files_found ∧ ∃ sid, extract_sample_id (path_split f).2 = some sid ∧
        sid ∈ (sample_ids.filter (fun c => c.2 == project_name)).map
          (fun x => x.1)) ∧
    (∀ sid, extract_sample_id (path_split f).2 = some sid →
      ∃ md i1 i2 i3 c1 c2 rest, (path_split f).2 = sid ++ '_' :: 'R' :: md ::
        '_' :: i1 :: i2 :: i3 :: c1 :: 'f' :: 'a' :: 's' :: 't' :: 'q' :: c2 ::
        'g' :: 'z' :: rest ∧
        md.isDigit = true ∧ i1.isDigit = true ∧ i2.isDigit = true ∧
        i3.isDigit = true) := by
  constructor
  · simp only [find_fastq_files, List.mem_filter]
    constructor
    · rintro ⟨hf, hp⟩
      refine ⟨hf, ?_⟩
      cases hex : extract_sample_id (path_split f).2 with
      | none => rw [hex] at hp; simp at hp
      | some sid =>
        rw [hex] at hp
        exact ⟨sid, rfl, by simpa using hp⟩
    · rintro ⟨hf, sid, hex, hmem⟩
      refine ⟨hf, ?_⟩
      rw [hex]
      simpa using hmem
  · intro sid hex
    unfold extract_sample_id at hex
    cases hfind : (List.range ((path_split f).2.length + 1)).reverse.find?
        (fun i => tail_matches ((path_split f).2.drop i)) with
    | none => rw [hfind] at hex; simp at hex
    | some i =>
      rw [hfind] at hex
      simp only [Option.map_some'] at hex
      have hsid : (path_split f).2.take i = sid := Option.some.inj hex
      have htm : tail_matches ((path_split f).2.drop i) = true := by
        have := List.find?_some hfind
        simpa using this
      obtain ⟨md, i1, i2, i3, c1, c2, rest, heq, h1, h2, h3, h4⟩ :=
        tail_matches_inv htm
      refine ⟨md, i1, i2, i3, c1, c2, rest, ?_, h1, h2, h3, h4⟩
      conv_lhs => rw [← List.take_append_drop i (path_split f).2]
      rw [hsid, heq]

/-- C5 counterexample: the discovered file `d/S_R3_001.fastq.gz` of known
sample `S` has mate digit 3.  The code's pattern `_R\d_` accepts it and the
resolver returns it; the spec's pattern with mate ∈ 1,2 excludes it, so the
two disagree on this input. -/
theorem c5_counterexample :
    find_fastq_files (("P").toList) [(("S").toList, ("P").toList)]
        [("d/S_R3_001.fastq.gz").toList] = [("d/S_R3_001.fastq.gz").toList] ∧
    find_fastq_files_spec (("P").toList) [(("S").toList, ("P").toList)]
        [("d/S_R3_001.fastq.gz").toList] = [] ∧
    ¬ (find_fastq_files (("P").toList) [(("S").toList, ("P").toList)]
        [("d/S_R3_001.fastq.gz").toList] =
      find_fastq_files_spec (("P").toList) [(("S").toList, ("P").toList)]
        [("d/S_R3_001.fastq.gz").toList]) := by
  decide

/-- C5 witness: the ordinary file `d/S_R1_001.fastq.gz` of sample `S` is
kept by the resolver, and its base name decomposes as the amended pattern
requires. -/
theorem c5_witness :
    ("d/S_R1_001.fastq.gz").toList ∈ find_fastq_files (("P").toList)
      [(("S").toList, ("P").toList)] [("d/S_R1_001.fastq.gz").toList] ∧
    ∃ md i1 i2 i3 c1 c2 rest, (path_split (("d/S_R1_001.fastq.gz").toList)).2 =
      ("S").toList ++ '_' :: 'R' :: md :: '_' :: i1 :: i2 :: i3 :: c1 ::
        'f' :: 'a' :: 's' :: 't' :: 'q' :: c2 :: 'g' :: 'z' :: rest ∧
      md.isDigit = true ∧ i1.isDigit = true ∧
      i2.isDigit = true ∧ i3.isDigit = true :=
  ⟨((c5_resolve_exact (("P").toList) [(("S").toList, ("P").toList)]
      [("d/S_R1_001.fastq.gz").toList] (("d/S_R1_001.fastq.gz").toList)).1).mpr
      ⟨by decide, ("S").toList, by decide, by decide⟩,
   (c5_resolve_exact (("P").toList) [(("S").toList, ("P").toList)]
      [("d/S_R1_001.fastq.gz").toList] (("d/S_R1_001.fastq.gz").toList)).2
      (("S").toList) (by decide)⟩

/-! ## Claim C10: paths returned by the recursive walk -/

/-- C10: every path `_find_fastq_files_in_run_dir` returns is the top-level
search directory joined with a base name found by the walk; conversely every
`fastq.gz` base name found under any walked root — however deeply nested —
is reported as `join(search_path, base_name)`, which differs from the file's
real location `join(root, base_name)` whenever the walked root is not the
search directory itself. -/
theorem c10_walk_paths (sp : List Char)
    (walk_results : List (List Char × List (List Char))) :
    (∀ p ∈ find_fastq_files_in_run_dir sp walk_results,
      ∃ rt fs f, (rt, fs) ∈ walk_results ∧ f ∈ fs ∧
        ends_with_fastq_gz f = true ∧ p = pjoin sp f) ∧
    (∀ rt fs f, (rt, fs) ∈ walk_results → f ∈ fs →
      ends_with_fastq_gz f = true →
      pjoin sp f ∈ find_fastq_files_in_run_dir sp walk_results ∧
        (rt ≠ sp → pjoin sp f ≠ pjoin rt f)) := by
  constructor
  · induction walk_results with
    | nil => intro p hp; simp [find_fastq_files_in_run_dir] at hp
    | cons rd rest ih =>
      intro p hp
      simp only [find_fastq_files_in_run_dir] at hp
      rcases List.mem_append.mp hp with hl | hr
      · obtain ⟨f, hf, rfl⟩ := List.mem_map.mp hl
        obtain ⟨hfs, hend⟩ := List.mem_filter.mp hf
        exact ⟨rd.1, rd.2, f, by simp, hfs, hend, rfl⟩
      · obtain ⟨rt, fs, f, hmem, hfs, hend, rfl⟩ := ih p hr
        exact ⟨rt, fs, f, List.mem_cons_of_mem rd hmem, hfs, hend, rfl⟩
  · induction walk_results with
    | nil => intro rt fs f h; simp at h
    | cons rd rest ih =>
      intro rt fs f hmem hfs hend
      have hneq : rt ≠ sp → pjoin sp f ≠ pjoin rt f := by
        intro hne heq
        exact hne (List.append_cancel_right heq).symm
      rcases List.mem_cons.mp hmem with heq | hmem'
      · refine ⟨?_, hneq⟩
        simp only [find_fastq_files_in_run_dir]
        refine List.mem_append_left _ (List.mem_map.mpr ⟨f, ?_, rfl⟩)
        refine List.mem_filter.mpr ⟨?_, hend⟩
        have : fs = rd.2 := by rw [← heq]
        rw [← this]
        exact hfs
      · obtain ⟨hin, -⟩ := ih rt fs f hmem' hfs hend
        refine ⟨?_, hneq⟩
        simp only [find_fastq_files_in_run_dir]
        exact List.mem_append_right _ hin

/-- C10 witness: a walk that finds `b.fastq.gz` inside the nested
subdirectory `sub` of the search path reports it at the top of the search
path — a path different from the file's real location. -/
theorem c10_witness :
    pjoin (("Data/Fastq/P").toList) (("b.fastq.gz").toList) ∈
      find_fastq_files_in_run_dir (("Data/Fastq/P").toList)
        [((("Data/Fastq/P").toList), [("a.fastq.gz").toList]),
         ((("Data/Fastq/P/sub").toList),
           [("b.fastq.gz").toList, ("x.txt").toList])] ∧
    pjoin (("Data/Fastq/P").toList) (("b.fastq.gz").toList) ≠
      pjoin (("Data/Fastq/P/sub").toList) (("b.fastq.gz").toList) := by
  have h := (c10_walk_paths (("Data/Fastq/P").toList)
    [((("Data/Fastq/P").toList), [("a.fastq.gz").toList]),
     ((("Data/Fastq/P/sub").toList),
       [("b.fastq.gz").toList, ("x.txt").toList])]).2
    (("Data/Fastq/P/sub").toList)
    [("b.fastq.gz").toList, ("x.txt").toList]
    (("b.fastq.gz").toList) (by decide) (by decide) (by decide)
  exact ⟨h.1, h.2 (by decide)⟩

/-! ## Claim C1: array size and concurrency cap -/

/-- C1 (amended): for every command table and configuration, line 10 of the
generated script is the array directive `#PBS -t 1-N%P` with `N` exactly the
table length and the concurrency cap `P` exactly the configured pool size —
not `min(P, N)`: no saturation occurs when the pool exceeds the task
count. -/
theorem c1_array_directive (cfg : QCJobConfig)
    (project_name output_log_path error_log_path sh_details_fp : List Char)
    (cmds : List (List Char)) :
    (job_script_lines cfg project_name output_log_path error_log_path
        sh_details_fp cmds)[9]? =
      some (("#PBS -t 1-").toList ++ natChars cmds.length ++
        '%' :: natChars cfg.pool_size) := rfl

/-- C1 counterexample: one command, pool size 5.  The code emits
`#PBS -t 1-1%5`, while the claim's `min(P, N)` requires `#PBS -t 1-1%1`;
the declared cap exceeds the task count. -/
theorem c1_counterexample :
    (job_script_lines cfgPool5 (("ProjA").toList) (("olog").toList)
        (("elog").toList) (("sfp").toList) [("c1").toList])[9]? =
      some (("#PBS -t 1-1%5").toList) ∧
    array_directive_spec 1 5 = ("#PBS -t 1-1%1").toList ∧
    ¬ ((job_script_lines cfgPool5 (("ProjA").toList) (("olog").toList)
        (("elog").toList) (("sfp").toList) [("c1").toList])[9]? =
      some (array_directive_spec 1 5)) := by
  decide

/-! ## Claim C2: zero-length command table -/

/-- C2: at the failing input — a project whose command table is empty —
`_generate_job_script` raises no error and still writes both files: the job
script, whose array directive is the malformed zero-task range
`#PBS -t 1-0%16`, and an empty command table.  The spec requires generation
to fail fast with an error naming the project, with no file written. -/
theorem c2_zero_commands_still_writes :
    (generate_job_script_writes cfgPool16 (("ProjectA").toList)
        (("jobscript.sh").toList) (("olog").toList) (("elog").toList)
        []).length = 2 ∧
    (job_script_lines cfgPool16 (("ProjectA").toList) (("olog").toList)
        (("elog").toList) (sh_details_path cfgPool16 (("ProjectA").toList))
        [])[9]? = some (("#PBS -t 1-0%16").toList) := by
  decide

/-! ## Claim C6: write order of table and script -/

theorem mem_init_trace_table {projects : List (List Char)} {p : List Char}
    (hp : p ∈ projects) : QCEvent.write_table p ∈ init_trace projects := by
  induction projects with
  | nil => simp at hp
  | cons a rest ih =>
    rcases List.mem_cons.mp hp with rfl | hp'
    · simp [init_trace]
    · simp only [init_trace, List.mem_cons]
      exact Or.inr (Or.inr (Or.inr (ih hp')))

theorem mem_init_trace_script {projects : List (List Char)} {p : List Char}
    (hp : p ∈ projects) : QCEvent.write_script p ∈ init_trace projects := by
  induction projects with
  | nil => simp at hp
  | cons a rest ih =>
    rcases List.mem_cons.mp hp with rfl | hp'
    · simp [init_trace]
    · simp only [init_trace, List.mem_cons]
      exact Or.inr (Or.inr (Or.inr (ih hp')))

theorem mem_run_trace_qsub {projects : List (List Char)} {p : List Char}
    (hp : p ∈ projects) : QCEvent.qsub_submit p ∈ run_trace projects := by
  induction projects with
  | nil => simp at hp
  | cons a rest ih =>
    rcases List.mem_cons.mp hp with rfl | hp'
    · simp [run_trace]
    · simp only [run_trace, List.mem_cons]
      exact Or.inr (Or.inr (ih hp'))

theorem qsub_not_mem_init {projects : List (List Char)} {q : List Char} :
    QCEvent.qsub_submit q ∉ init_trace projects := by
  induction projects with
  | nil => simp [init_trace]
  | cons a rest ih => simp [init_trace, ih]

/-- C6 (amended): both the command table and the job script are fully
written during construction, before any submission: the full trace splits
into the construction prefix — containing every project's script write and
table write — and the run suffix containing the submissions, and no
submission occurs in the prefix.  No array task can therefore observe a
partially written table; but within script generation the job script is
written first and the command table second, not the other way around. -/
theorem c6_table_before_submit (projects : List (List Char)) (p : List Char)
    (hp : p ∈ projects) :
    ∃ l1 l2, qcjob_trace projects = l1 ++ l2 ∧
      QCEvent.write_table p ∈ l1 ∧ QCEvent.write_script p ∈ l1 ∧
      QCEvent.qsub_submit p ∈ l2 ∧ ∀ q, QCEvent.qsub_submit q ∉ l1 :=
  ⟨init_trace projects, run_trace projects, rfl,
    mem_init_trace_table hp, mem_init_trace_script hp,
    mem_run_trace_qsub hp, fun _ => qsub_not_mem_init⟩

/-- C6 counterexample: with one project the trace is find-fastq,
write-script, write-table, qsub, filter — the job script reaches disk
strictly before the command table, so "the command-table file is fully
written and closed before the job script ... is written to disk" is false
as stated. -/
theorem c6_counterexample :
    qcjob_trace [("ProjectA").toList] =
      [QCEvent.find_fastq (("ProjectA").toList),
       QCEvent.write_script (("ProjectA").toList),
       QCEvent.write_table (("ProjectA").toList),
       QCEvent.qsub_submit (("ProjectA").toList),
       QCEvent.run_filter (("ProjectA").toList)] ∧
    ¬ (List.indexOf (QCEvent.write_table (("ProjectA").toList))
          (qcjob_trace [("ProjectA").toList]) <
        List.indexOf (QCEvent.write_script (("ProjectA").toList))
          (qcjob_trace [("ProjectA").toList])) := by
  decide

/-- C6 witness: the amended theorem at a one-project run. -/
theorem c6_witness :
    ∃ l1 l2, qcjob_trace [("ProjectA").toList] = l1 ++ l2 ∧
      QCEvent.write_table (("ProjectA").toList) ∈ l1 ∧
      QCEvent.write_script (("ProjectA").toList) ∈ l1 ∧
      QCEvent.qsub_submit (("ProjectA").toList) ∈ l2 ∧
      ∀ q, QCEvent.qsub_submit q ∉ l1 :=
  c6_table_before_submit [("ProjectA").toList] (("ProjectA").toList)
    (by decide)

/-! ## Claim C7: command table lines and task lookup -/

theorem split_lines_no_nl {s : List Char} (h : '\n' ∉ s) :
    split_lines s = [s] := by
  induction s with
  | nil => rfl
  | cons c rest ih =>
    have hc : ¬ c = '\n' := fun hcc => h (hcc ▸ List.mem_cons_self c rest)
    have hr : '\n' ∉ rest := fun hm => h (List.mem_cons_of_mem c hm)
    simp only [split_lines, if_neg hc, ih hr]

theorem split_lines_append {x t : List Char} (h : '\n' ∉ x) :
    split_lines (x ++ '\n' :: t) = x :: split_lines t := by
  induction x with
  | nil => simp [split_lines]
  | cons c rest ih =>
    have hc : ¬ c = '\n' := fun hcc => h (hcc ▸ List.mem_cons_self c rest)
    have hr : '\n' ∉ rest := fun hm => h (List.mem_cons_of_mem c hm)
    simp only [List.cons_append, split_lines, List.append_eq, if_neg hc, ih hr]

theorem split_join : ∀ {cmds : List (List Char)}, cmds ≠ [] →
    (∀ c ∈ cmds, '\n' ∉ c) → split_lines (joinSep '\n' cmds) = cmds := by
  intro cmds
  induction cmds with
  | nil => intro hne _; exact absurd rfl hne
  | cons x xs ih =>
    intro _ hnl
    cases xs with
    | nil => exact split_lines_no_nl (hnl x (List.mem_cons_self x []))
    | cons y ys =>
      have hx : '\n' ∉ x := hnl x (List.mem_cons_self x (y :: ys))
      have hjoin : joinSep '\n' (x :: y :: ys) =
          x ++ '\n' :: joinSep '\n' (y :: ys) := rfl
      rw [hjoin, split_lines_append hx,
        ih (by simp) (fun c hc => hnl c (List.mem_cons_of_mem x hc))]

theorem getLast?_take_eq {l : List (List Char)} :
    ∀ {i : Nat}, 1 ≤ i → i ≤ l.length → (l.take i).getLast? = l[i-1]? := by
  induction l with
  | nil => intro i h1 h2; simp only [List.length_nil] at h2; omega
  | cons a rest ih =>
    intro i h1 h2
    cases i with
    | zero => omega
    | succ k =>
      cases k with
      | zero => simp
      | succ k2 =>
        cases rest with
        | nil =>
          simp only [List.length_cons, List.length_nil] at h2
          omega
        | cons b l' =>
          have h2' : k2 + 1 ≤ (b :: l').length := by
            simpa using Nat.le_of_succ_le_succ h2
          have hih := ih (Nat.succ_le_succ (Nat.zero_le k2)) h2'
          simp only [List.take_succ_cons, List.getLast?_cons_cons,
            List.getElem?_cons_succ]
          simpa using hih

/-- C7 (amended): for a non-empty command list in which no command string
contains a newline, the i-th line (1-based) of the written `.array-details`
table equals the i-th command, and the task body's
`head -n i | tail -n 1` lookup selects exactly that command. -/
theorem c7_task_gets_its_line (cmds : List (List Char)) (i : Nat)
    (hne : cmds ≠ []) (hnl : ∀ c ∈ cmds, '\n' ∉ c)
    (h1 : 1 ≤ i) (hi : i ≤ cmds.length) :
    (split_lines (joinSep '\n' cmds))[i-1]? = cmds[i-1]? ∧
    task_command i (joinSep '\n' cmds) = cmds[i-1]? := by
  have hs := split_join hne hnl
  refine ⟨by rw [hs], ?_⟩
  unfold task_command
  rw [hs]
  exact getLast?_take_eq h1 hi

/-- C7 counterexample: the single "command" `a\nb` contains a newline.  The
table file then holds two lines; line 1 is `a`, and task 1 executes `a`,
not its listed command `a\nb`.  The claim, quantified over every non-empty
command list, is false. -/
theorem c7_counterexample :
    task_command 1 (joinSep '\n' [('a' :: '\n' :: 'b' :: [])]) = some ['a'] ∧
    [('a' :: '\n' :: 'b' :: [])][0]? = some ['a', '\n', 'b'] ∧
    ¬ (task_command 1 (joinSep '\n' [('a' :: '\n' :: 'b' :: [])]) =
      [('a' :: '\n' :: 'b' :: [])][0]?) := by
  decide

/-- C7 witness: in a two-command table, line 2 is command 2 and task 2
reads exactly it. -/
theorem c7_witness :
    (split_lines (joinSep '\n' [("cmd one").toList, ("cmd two").toList]))[1]? =
      some (("cmd two").toList) ∧
    task_command 2 (joinSep '\n' [("cmd one").toList, ("cmd two").toList]) =
      some (("cmd two").toList) := by
  have h := c7_task_gets_its_line [("cmd one").toList, ("cmd two").toList] 2
    (by decide) (by decide) (by decide) (by decide)
  exact ⟨h.1.trans (by decide), h.2.trans (by decide)⟩

end MgScripts
